import Mathlib

/-!
Verification of the iterator core of `go-extra-lib` (package `iter`).

The Go iterator protocol (src/iter/iter.go) is a stateful triple
`Next() bool / Get() T / Err() error`, where `Next` advances a mutable
cursor, `Get` reads the current element and `Err` reports a terminal
error after `Next` returned false.  We embed an iterator as an explicit
state machine: a record of pure functions over a state type `σ`, plus
the current state threaded by hand.  Go's `nil`-able `error` becomes
`Option E`; the optional `VolatileIterator` capability (`GetCopy`) is
an optional extra field, mirroring Go's runtime interface assertion in
`ToNonVolatile`.  Go zero values become `Inhabited.default`; a `panic`
in a constructor becomes an `Option`-returning constructor; consumer
loops (`IntoSlice`, `Reduce`, `Skip`, draining) take explicit fuel and
return `none` when the fuel is insufficient, so `some` results assert
genuine termination of the Go loop.
-/

namespace GoIter

/-- State-machine embedding of the Go `Iterator[T]` interface
(src/iter/iter.go lines 31-62), together with the optional
`VolatileIterator` capability (lines 71-77): `getCopy = some f` models a
dynamic type that implements `GetCopy`. -/
structure It (σ T E : Type) where
  next : σ → Bool × σ
  get : σ → T
  err : σ → Option E
  getCopy : Option (σ → T)

/-- An iterator packaged with its (hidden) state type and current state,
modelling a Go `Iterator[T]` interface value. -/
def IterP (T E : Type) : Type 1 :=
  (σ : Type) × It σ T E × σ

/-- `sliceIterator` (src/iter/iter.go lines 79-98).  State is the `int`
field `i`; the slice `s` is captured.  `Get` out of bounds (a Go panic)
is modelled by the default element. -/
def sliceIterator {T E : Type} [Inhabited T] (s : List T) : It Int T E where
  next := fun i =>
    if i ≥ (s.length : Int) then (false, i)
    else (decide ((i + 1 : Int) < (s.length : Int)), i + 1)
  get := fun i => s.getD i.toNat default
  err := fun _ => none
  getCopy := none

/-- `OverSlice` (src/iter/iter.go lines 100-105): a `sliceIterator`
starting at index `-1`. -/
def OverSlice {T E : Type} [Inhabited T] (s : List T) : It Int T E × Int :=
  (sliceIterator s, -1)

/-- `emptyIterator` (src/iter/iter.go lines 247-251).  `Get` panics in
Go; here it returns the default element. -/
def emptyIterator {T E : Type} [Inhabited T] : It Unit T E where
  next := fun u => (false, u)
  get := fun _ => default
  err := fun _ => none
  getCopy := none

/-- `errorIterator` / `Error` (src/iter/iter.go lines 257-267): never
yields, `Err` returns the stored error. -/
def errorIterator {T E : Type} [Inhabited T] (e : E) : It Unit T E where
  next := fun u => (false, u)
  get := fun _ => default
  err := fun _ => some e
  getCopy := none

/-- `nonVolatileIterator` (src/iter/iter.go lines 269-275): delegates
`Next` to the wrapped iterator, `Get` to the wrapped `GetCopy`, and its
`Err` method returns `nil` (the literal source: `func (i
nonVolatileIterator[T]) Err() error { return nil }`). -/
def nonVolatileIterator {σ T E : Type} (i : It σ T E) (gc : σ → T) : It σ T E where
  next := i.next
  get := gc
  err := fun _ => none
  getCopy := none

/-- `ToNonVolatile` (src/iter/iter.go lines 286-291): if the input
implements `VolatileIterator`, wrap it in `nonVolatileIterator`,
otherwise return the input unchanged. -/
def ToNonVolatile {σ T E : Type} (i : It σ T E) : It σ T E :=
  match i.getCopy with
  | some gc => nonVolatileIterator i gc
  | none => i

/-- Fuel-bounded draining of an iterator: the list of elements produced
by repeatedly calling `Next` then `Get` until `Next` returns false.
`some l` asserts that `Next` returned false after exactly `l.length`
yields; `none` means the fuel ran out first. -/
def drain {σ T E : Type} (it : It σ T E) : σ → ℕ → Option (List T)
  | _, 0 => none
  | s, fuel + 1 =>
    match it.next s with
    | (false, _) => some []
    | (true, s') => (drain it s' fuel).map (it.get s' :: ·)

/-- Fuel-bounded count of yields: `some n` asserts `Next` returned
`true` exactly `n` times and then `false`. -/
def yieldCount {σ T E : Type} (it : It σ T E) : σ → ℕ → Option ℕ
  | _, 0 => none
  | s, fuel + 1 =>
    match it.next s with
    | (false, _) => some 0
    | (true, s') => (yieldCount it s' fuel).map (· + 1)

/-- Fuel-bounded search for the state in which `Next` first returns
false (the state in which Go callers query `Err`). -/
def stopState {σ T E : Type} (it : It σ T E) : σ → ℕ → Option σ
  | _, 0 => none
  | s, fuel + 1 =>
    match it.next s with
    | (false, s') => some s'
    | (true, s') => stopState it s' fuel

/-- `hasAtLeast it n s = true` iff the next `n` calls to `Next` from
state `s` all return `true`, i.e. the iterator holds at least `n` more
elements. -/
def hasAtLeast {σ T E : Type} (it : It σ T E) : ℕ → σ → Bool
  | 0, _ => true
  | n + 1, s =>
    match it.next s with
    | (false, _) => false
    | (true, s') => hasAtLeast it n s'

/-- `allFalseN it k s = true` iff the next `k` calls to `Next` from
state `s` all return `false`. -/
def allFalseN {σ T E : Type} (it : It σ T E) : ℕ → σ → Bool
  | 0, _ => true
  | k + 1, s =>
    match it.next s with
    | (true, _) => false
    | (false, s') => allFalseN it k s'

/-- The state reached after `k` calls to `Next`. -/
def stateAfterN {σ T E : Type} (it : It σ T E) : ℕ → σ → σ
  | 0, s => s
  | k + 1, s => stateAfterN it k (it.next s).2

/-- Instrumentation wrapper: behaves exactly like `i` but counts the
number of `Next` calls made on it in an extra state component.  Used to
state construction-time laziness claims. -/
def counted {σ T E : Type} (i : It σ T E) : It (ℕ × σ) T E where
  next := fun st =>
    match i.next st.2 with
    | (b, s') => (b, (st.1 + 1, s'))
  get := fun st => i.get st.2
  err := fun st => i.err st.2
  getCopy := none

/-- `drain` / `yieldCount` / `firstP` lifted to packaged iterators. -/
def drainP {T E : Type} (p : IterP T E) (fuel : ℕ) : Option (List T) :=
  drain p.2.1 p.2.2 fuel

def yieldCountP {T E : Type} (p : IterP T E) (fuel : ℕ) : Option ℕ :=
  yieldCount p.2.1 p.2.2 fuel

/-- The first element yielded by a packaged iterator (result of `Get`
after the first `Next`), or `none` if the first `Next` returns false. -/
def firstP {T E : Type} (p : IterP T E) : Option T :=
  match p.2.1.next p.2.2 with
  | (true, s') => some (p.2.1.get s')
  | (false, _) => none

/-- The value of `Err()` queried in the state where `Next` first
returned false (the protocol's prescribed time to query it), or `none`
if the iterator did not stop within the fuel. -/
def errAtStopP {T E : Type} (p : IterP T E) (fuel : ℕ) : Option (Option E) :=
  (stopState p.2.1 p.2.2 fuel).map p.2.1.err

/-- The three states of `accumulateIteratorState`
(src/iter/elementwise_operations.go lines 12-18). -/
inductive AccState where
  | base
  | initial
  | finished
deriving DecidableEq

/-- `accumulateIterator` (src/iter/elementwise_operations.go lines
20-53).  State: wrapped iterator state, `state` field, accumulator. -/
def accumulateIterator {σ T R E : Type} (i : It σ T E) (f : R → T → R) :
    It (σ × AccState × R) R E where
  next := fun st =>
    match st.2.1 with
    | AccState.base =>
      match i.next st.1 with
      | (true, s') => (true, (s', AccState.base, f st.2.2 (i.get s')))
      | (false, s') => (false, (s', AccState.finished, st.2.2))
    | AccState.initial => (true, (st.1, AccState.base, st.2.2))
    | AccState.finished => (false, st)
  get := fun st => st.2.2
  err := fun st => i.err st.1
  getCopy := none

/-- `Accumulate` (src/iter/elementwise_operations.go lines 68-74).  It
calls `i.Next()` at construction time: an empty source yields a plain
`emptyIterator`, otherwise the first element (read with `i.Get()`) seeds
the accumulator and the source is left advanced by one. -/
def Accumulate {σ T E : Type} [Inhabited T] (i : It σ T E) (f : T → T → T) (s : σ) :
    IterP T E :=
  match i.next s with
  | (false, _) => ⟨Unit, emptyIterator, ()⟩
  | (true, s') => ⟨σ × AccState × T, accumulateIterator i f, (s', AccState.initial, i.get s')⟩

/-- `functionMapIterator` / `Map` (src/iter/elementwise_operations.go
lines 375-400).  The wrapper state is exactly the source state. -/
def Map {σ T U E : Type} (i : It σ T E) (f : T → U) (s : σ) : It σ U E × σ :=
  (⟨i.next, fun st => f (i.get st), i.err, none⟩, s)

/-- Construction of `filterIterator` by `Filter`
(src/iter/elementwise_operations.go lines 271-302): the composite
literal `&filterIterator{i: i, keep: keep}` stores the source untouched
and a zero-valued `e` field.  (`Next` contains an unbounded source loop
and is not needed by any claim, so only the constructor is embedded.) -/
def Filter {σ T E : Type} [Inhabited T] (i : It σ T E) (keep : T → Bool) (s : σ) :
    σ × T :=
  (s, default)

/-- Construction of `dropWhileIterator` by `DropWhile`
(src/iter/elementwise_operations.go lines 203-235): stores the source
untouched, zero-valued `e`, `skipped = false`.  (As with `Filter`, its
`Next` loops over the source and is not needed by any claim.) -/
def DropWhile {σ T E : Type} [Inhabited T] (i : It σ T E) (pred : T → Bool) (s : σ) :
    σ × T × Bool :=
  (s, default, false)

/-- `takeWhileIterator` (src/iter/elementwise_operations.go lines
685-708).  State: source state, `e` field, `done` flag. -/
def takeWhileIterator {σ T E : Type} (i : It σ T E) (pred : T → Bool) :
    It (σ × T × Bool) T E where
  next := fun st =>
    if st.2.2 then (false, st)
    else
      match i.next st.1 with
      | (false, s') => (false, (s', st.2.1, st.2.2))
      | (true, s') =>
        let e := i.get s'
        if pred e then (true, (s', e, false)) else (false, (s', e, true))
  get := fun st => st.2.1
  err := fun st => i.err st.1
  getCopy := none

/-- `TakeWhile` (src/iter/elementwise_operations.go lines 718-720). -/
def TakeWhile {σ T E : Type} [Inhabited T] (i : It σ T E) (pred : T → Bool) (s : σ) :
    It (σ × T × Bool) T E × (σ × T × Bool) :=
  (takeWhileIterator i pred, (s, default, false))

/-- `limitIterator` (src/iter/elementwise_operations.go lines 341-355).
Go's `if i.i.Next() && i.left > 0` always evaluates `i.i.Next()` first,
so the source is advanced on every call, including the one that returns
false because `left` reached 0. -/
def limitIterator {σ T E : Type} (i : It σ T E) : It (σ × ℕ) T E where
  next := fun st =>
    match i.next st.1 with
    | (b, s') =>
      if b && decide (0 < st.2) then (true, (s', st.2 - 1)) else (false, (s', st.2))
  get := fun st => i.get st.1
  err := fun st => i.err st.1
  getCopy := none

/-- `Limit` (src/iter/elementwise_operations.go lines 368-373).  The Go
function panics for negative `n`; `n : ℕ` covers the claims, which only
concern `n ≥ 0`. -/
def Limit {σ T E : Type} (i : It σ T E) (n : ℕ) (s : σ) : It (σ × ℕ) T E × (σ × ℕ) :=
  (limitIterator i, (s, n))

/-- `enumerateIterator` / `Enumerate` (src/iter/elementwise_operations.go
lines 237-263).  State: source state and the running `n`, initialised to
`start - 1`. -/
def enumerateIterator {σ T E : Type} (i : It σ T E) : It (σ × Int) (Int × T) E where
  next := fun st =>
    match i.next st.1 with
    | (true, s') => (true, (s', st.2 + 1))
    | (false, s') => (false, (s', st.2))
  get := fun st => (st.2, i.get st.1)
  err := fun st => i.err st.1
  getCopy := none

/-- `Enumerate` constructor (lines 261-263). -/
def Enumerate {σ T E : Type} (i : It σ T E) (start : Int) (s : σ) :
    It (σ × Int) (Int × T) E × (σ × Int) :=
  (enumerateIterator i, (s, start - 1))

/-- `Skip` (src/iter/elementwise_operations.go lines 633-643): at
construction it calls `i.Next()` up to `n` times (stopping early at
exhaustion) and returns the same iterator, now advanced.  The Go
function panics for negative `n`; `n : ℕ` covers the claims. -/
def Skip {σ T E : Type} (i : It σ T E) : ℕ → σ → σ
  | 0, s => s
  | a + 1, s =>
    match i.next s with
    | (false, s') => s'
    | (true, s') => Skip i a s'

/-- The inner loop of `Reduce` (src/iter/elementwise_operations.go lines
590-600), threading the Go locals `r` and `ok`. -/
def reduceLoop {σ T E : Type} (i : It σ T E) (f : T → T → T) :
    T → Bool → σ → ℕ → Option (T × Bool)
  | _, _, _, 0 => none
  | r, ok, s, fuel + 1 =>
    match i.next s with
    | (false, _) => some (r, ok)
    | (true, s') =>
      if ok then reduceLoop i f (f r (i.get s')) true s' fuel
      else reduceLoop i f (i.get s') true s' fuel

/-- `Reduce` (src/iter/elementwise_operations.go lines 590-600): `r`
starts at the zero value (modelled by `default`), `ok` at false. -/
def Reduce {σ T E : Type} [Inhabited T] (i : It σ T E) (f : T → T → T) (s : σ)
    (fuel : ℕ) : Option (T × Bool) :=
  reduceLoop i f default false s fuel

/-- `IntoSlice` (src/iter/collect.go lines 11-18): applies
`ToNonVolatile` and collects every element. -/
def IntoSlice {σ T E : Type} (i : It σ T E) (s : σ) (fuel : ℕ) : Option (List T) :=
  drain (ToNonVolatile i) s fuel

/-- `cycleIterator` (cycle/repeat source file, lines 8-23).  State: the
`i` and `loop` int fields; `items` and `loops` are captured. -/
def cycleIterator {T E : Type} [Inhabited T] (items : List T) (loops : Int) :
    It (Int × Int) T E where
  next := fun st =>
    let i := st.1 + 1
    if i = (items.length : Int) then (decide (st.2 + 1 < loops), (0, st.2 + 1))
    else (decide (st.2 < loops), (i, st.2))
  get := fun st => items.getD st.1.toNat default
  err := fun _ => none
  getCopy := none

/-- `Cycle` (cycle/repeat source file, lines 36-45): panics (`none`) for
negative `n`; returns `Empty` when there are no items or `n = 0`. -/
def Cycle {T E : Type} [Inhabited T] (n : Int) (items : List T) : Option (IterP T E) :=
  if n < 0 then none
  else if items.length = 0 ∨ n = 0 then some ⟨Unit, emptyIterator, ()⟩
  else some ⟨Int × Int, cycleIterator items n, (-1, 0)⟩

/-- `repeatIterator` (cycle/repeat source file, lines 221-232).  The Go
`%` truncates towards zero; its argument `i+1` is always non-negative
here, where it agrees with Lean's `Int` `%`. -/
def repeatIterator {T E : Type} [Inhabited T] (items : List T) : It Int T E where
  next := fun i => (true, (i + 1) % (items.length : Int))
  get := fun i => items.getD i.toNat default
  err := fun _ => none
  getCopy := none

/-- `Repeat` (cycle/repeat source file, lines 245-250): panics (`none`)
if there are no elements. -/
def Repeat {T E : Type} [Inhabited T] (items : List T) : Option (IterP T E) :=
  if items.length = 0 then none
  else some ⟨Int, repeatIterator items, -1⟩

/-- `[lo, lo+1, ..., lo+r-1]`: the freshly reset run of consecutive
indices produced by the combinations algorithm. -/
def consec (lo : ℕ) : ℕ → List ℕ
  | 0 => []
  | r + 1 => lo :: consec (lo + 1) r

/-- The index-successor step of `combinationsIterator.Next`
(src/iter/combinatorics.go lines 131-146).  The Go loop scans the index
vector from the right for the largest position `i` with
`indices[i] != i + n - r`, increments it and resets the following
positions to consecutive values; it returns false (here `none`) when no
such position exists.  `d` is `n - r + p` where `p` is the absolute
position of the current head, so the test `indices[p] != p + n - r`
becomes `x ≠ d`; recursing into the tail first realises the
rightmost-first scan. -/
def combSucc (d : ℕ) : List ℕ → Option (List ℕ)
  | [] => none
  | x :: t =>
    match combSucc (d + 1) t with
    | some t' => some (x :: t')
    | none => if x = d then none else some ((x + 1) :: consec (x + 2) t.length)

/-- `combinationsIterator` (src/iter/combinatorics.go lines 109-158).
State: the `indices` vector and the `started` flag; the first `Next`
initialises `indices` to `[0, ..., r-1]` and returns true, later calls
apply the index-successor step.  `Get` maps each index through `items`
into the reused `dest` buffer; `GetCopy` clones it. -/
def combinationsIterator {T E : Type} [Inhabited T] (items : List T) (r : ℕ) :
    It (List ℕ × Bool) (List T) E where
  next := fun st =>
    if st.2 then
      match combSucc (items.length - r) st.1 with
      | some idx' => (true, (idx', true))
      | none => (false, st)
    else (true, (consec 0 r, true))
  get := fun st => st.1.map (fun k => items.getD k default)
  err := fun _ => none
  getCopy := some (fun st => st.1.map (fun k => items.getD k default))

/-- `Combinations` (src/iter/combinatorics.go lines 182-192): `r`
negative panics (excluded by `r : ℕ`); `r > len(items)` yields `Empty`;
`r = 0` yields `Over([]T(nil))`, a one-element slice iterator holding
the empty tuple. -/
def Combinations {T E : Type} [Inhabited T] (r : ℕ) (items : List T) :
    IterP (List T) E :=
  if r > items.length then ⟨Unit, emptyIterator, ()⟩
  else if r = 0 then ⟨Int, sliceIterator [([] : List T)], -1⟩
  else ⟨List ℕ × Bool, combinationsIterator items r, ([], false)⟩

/-- `bits.OnesCount64` restricted to the values in use (population
count). -/
def popCount (n : ℕ) : ℕ :=
  (Nat.bits n).count true

/-- `powerSetIterator` (src/iter/combinatorics.go lines 443-479).
State: the `current` counter (a uint64, hence arithmetic mod `2^64`) and
the `started` flag; `end` is `1 << len(items)` truncated to 64 bits.
`Get` special-cases the empty subset and otherwise gathers the items
whose index bit is set. -/
def powerSetIterator {T E : Type} [Inhabited T] (items : List T) :
    It (ℕ × Bool) (List T) E where
  next := fun st =>
    let current := if st.2 then (st.1 + 1) % 2 ^ 64 else st.1
    (decide (current < (1 <<< items.length) % 2 ^ 64), (current, true))
  get := fun st =>
    if popCount st.1 = 0 then []
    else (List.range items.length).filterMap
      (fun srcIdx => if (st.1 >>> srcIdx) &&& 1 ≠ 0 then some (items.getD srcIdx default) else none)
  err := fun _ => none
  getCopy := some (fun st =>
    if popCount st.1 = 0 then []
    else (List.range items.length).filterMap
      (fun srcIdx => if (st.1 >>> srcIdx) &&& 1 ≠ 0 then some (items.getD srcIdx default) else none))

/-- `PowerSet` (src/iter/combinatorics.go lines 496-507): panics
(`none`) above 63 elements; a zero-element input yields `Over([]T(nil))`. -/
def PowerSet {T E : Type} [Inhabited T] (items : List T) :
    Option (IterP (List T) E) :=
  if items.length > 63 then none
  else if items.length = 0 then some ⟨Int, sliceIterator [([] : List T)], -1⟩
  else some ⟨ℕ × Bool, powerSetIterator items, (0, false)⟩

/-- Specification-side enumeration for the combinations proof: all
strictly increasing `r`-element index tuples drawn from `[lo, n)`, in
lexicographic order.  (Defined from the mathematical statement, not from
the Go source; the theorems connect the Go successor step to it.) -/
def combsFrom (n : ℕ) : ℕ → ℕ → List (List ℕ)
  | _, 0 => [[]]
  | lo, r + 1 =>
    (List.range' lo (n - r - lo)).flatMap fun i => (combsFrom n (i + 1) r).map (i :: ·)

/-- `IsTraceFrom d s L`: `L` is the complete run of the index-successor
step starting at `s`: it begins with `s`, consecutive entries are
related by `combSucc d`, and the last entry has no successor. -/
def IsTraceFrom (d : ℕ) : List ℕ → List (List ℕ) → Prop
  | _, [] => False
  | s, [x] => x = s ∧ combSucc d x = none
  | s, x :: y :: rest => x = s ∧ combSucc d x = some y ∧ IsTraceFrom d y (y :: rest)

end GoIter
namespace GoIter

theorem popCount_zero : popCount 0 = 0 := by
  simp [popCount, Nat.bits]

theorem slice_next_ge {T E : Type} [Inhabited T] (l : List T) (i : Int)
    (h : i ≥ (l.length : Int)) :
    (sliceIterator (E := E) l).next i = (false, i) := by
  simp [sliceIterator, h]

theorem slice_next_stop_ge {T E : Type} [Inhabited T] (l : List T) (i : Int)
    (h : ((sliceIterator (E := E) l).next i).1 = false) :
    ((sliceIterator (E := E) l).next i).2 ≥ (l.length : Int) := by
  by_cases hc : i ≥ (l.length : Int)
  · rw [slice_next_ge l i hc]; exact hc
  · simp only [sliceIterator, if_neg hc] at h ⊢
    simp only [decide_eq_false_iff_not, not_lt] at h
    exact h

end GoIter
namespace GoIter

theorem slice_allFalse_of_ge {T E : Type} [Inhabited T] (l : List T) :
    ∀ (k : ℕ) (j : Int), j ≥ (l.length : Int) →
      allFalseN (sliceIterator (E := E) l) k j = true ∧
      stateAfterN (sliceIterator (E := E) l) k j = j := by
  intro k
  induction k with
  | zero => intro j _; exact ⟨rfl, rfl⟩
  | succ k ih =>
    intro j hj
    have hnx := slice_next_ge (E := E) l j hj
    constructor
    · simp only [allFalseN, hnx]
      exact (ih j hj).1
    · simp only [stateAfterN, hnx]
      exact (ih j hj).2

/-- Claim C10: once a `sliceIterator`'s `Next` has returned false, every
further `Next` call also returns false, leaves the position unchanged,
and `Err` remains nil, even though the protocol declares such calls
undefined behaviour. -/
theorem c10_slice_next_after_false {T E : Type} [Inhabited T]
    (l : List T) (i : Int) (k : ℕ)
    (h : ((sliceIterator (E := E) l).next i).1 = false) :
    allFalseN (sliceIterator (E := E) l) k ((sliceIterator (E := E) l).next i).2 = true ∧
    stateAfterN (sliceIterator (E := E) l) k ((sliceIterator (E := E) l).next i).2 =
      ((sliceIterator (E := E) l).next i).2 ∧
    (sliceIterator (E := E) l).err
        (stateAfterN (sliceIterator (E := E) l) k ((sliceIterator (E := E) l).next i).2) =
      none := by
  have hge := slice_next_stop_ge (E := E) l i h
  obtain ⟨h1, h2⟩ := slice_allFalse_of_ge (E := E) l k _ hge
  exact ⟨h1, h2, rfl⟩

/-- Witness for C10 at the concrete exhausted iterator `Over(10, 20)`. -/
theorem c10_slice_next_after_false_witness :
    (((sliceIterator (E := Unit) ([10, 20] : List ℕ)).next 2).1 = false) ∧
    (allFalseN (sliceIterator (E := Unit) ([10, 20] : List ℕ)) 3
        ((sliceIterator (E := Unit) ([10, 20] : List ℕ)).next 2).2 = true ∧
      stateAfterN (sliceIterator (E := Unit) ([10, 20] : List ℕ)) 3
          ((sliceIterator (E := Unit) ([10, 20] : List ℕ)).next 2).2 =
        ((sliceIterator (E := Unit) ([10, 20] : List ℕ)).next 2).2 ∧
      (sliceIterator (E := Unit) ([10, 20] : List ℕ)).err
          (stateAfterN (sliceIterator (E := Unit) ([10, 20] : List ℕ)) 3
            ((sliceIterator (E := Unit) ([10, 20] : List ℕ)).next 2).2) =
        none) :=
  ⟨by decide, c10_slice_next_after_false ([10, 20] : List ℕ) 2 3 (by decide)⟩

end GoIter
namespace GoIter

theorem drain_step {σ T E : Type} (it : It σ T E) (s s' : σ) (fuel : ℕ)
    (h : it.next s = (true, s')) :
    drain it s (fuel + 1) = (drain it s' fuel).map (it.get s' :: ·) := by
  simp [drain, h]

theorem drain_stop {σ T E : Type} (it : It σ T E) (s s' : σ) (fuel : ℕ)
    (h : it.next s = (false, s')) :
    drain it s (fuel + 1) = some [] := by
  simp [drain, h]

theorem yieldCount_step {σ T E : Type} (it : It σ T E) (s s' : σ) (fuel : ℕ)
    (h : it.next s = (true, s')) :
    yieldCount it s (fuel + 1) = (yieldCount it s' fuel).map (· + 1) := by
  simp [yieldCount, h]

theorem yieldCount_stop {σ T E : Type} (it : It σ T E) (s s' : σ) (fuel : ℕ)
    (h : it.next s = (false, s')) :
    yieldCount it s (fuel + 1) = some 0 := by
  simp [yieldCount, h]

theorem stopState_step {σ T E : Type} (it : It σ T E) (s s' : σ) (fuel : ℕ)
    (h : it.next s = (true, s')) :
    stopState it s (fuel + 1) = stopState it s' fuel := by
  simp [stopState, h]

theorem stopState_stop {σ T E : Type} (it : It σ T E) (s s' : σ) (fuel : ℕ)
    (h : it.next s = (false, s')) :
    stopState it s (fuel + 1) = some s' := by
  simp [stopState, h]

theorem slice_next_lt {T E : Type} [Inhabited T] (l : List T) (k : ℕ) (hk : k ≤ l.length) :
    (sliceIterator (E := E) l).next ((k : Int) - 1) =
      (decide (k < l.length), (k : Int)) := by
  have hc : ¬ ((k : Int) - 1 ≥ (l.length : Int)) := by omega
  have h1 : (k : Int) - 1 + 1 = (k : Int) := by omega
  simp only [sliceIterator, if_neg hc, h1]
  congr 1
  exact decide_eq_decide.mpr (by exact_mod_cast Iff.rfl)

theorem drain_slice_aux {T E : Type} [Inhabited T] (l : List T) :
    ∀ (m k : ℕ), l.length - k = m → k ≤ l.length →
      drain (sliceIterator (E := E) l) ((k : Int) - 1) (m + 1) = some (l.drop k) := by
  intro m
  induction m with
  | zero =>
    intro k hm hk
    have hk' : k = l.length := by omega
    subst hk'
    have hnx := slice_next_lt (E := E) l l.length le_rfl
    rw [decide_eq_false (by omega)] at hnx
    rw [drain_stop _ _ _ _ hnx, List.drop_length]
  | succ m ih =>
    intro k hm hk
    have hlt : k < l.length := by omega
    have hnx := slice_next_lt (E := E) l k hk
    rw [decide_eq_true hlt] at hnx
    have ihh := ih (k + 1) (by omega) (by omega)
    have hcast : ((k + 1 : ℕ) : Int) - 1 = (k : Int) := by push_cast; omega
    rw [hcast] at ihh
    rw [drain_step _ _ _ _ hnx, ihh]
    simp only [Option.map_some']
    have hget : (sliceIterator (E := E) l).get (k : Int) = l[k] := by
      simp only [sliceIterator]
      rw [Int.toNat_ofNat]
      exact List.getD_eq_getElem l default hlt
    rw [hget, ← List.drop_eq_getElem_cons hlt]

theorem drain_slice {T E : Type} [Inhabited T] (l : List T) :
    drain (sliceIterator (E := E) l) (-1) (l.length + 1) = some l := by
  have h := drain_slice_aux (E := E) l l.length 0 (by omega) (by omega)
  simpa using h

/-- Claim C7: round-trip.  If collecting an iterator with `IntoSlice`
produced the list `l`, then re-wrapping `l` with `OverSlice` and
collecting again reproduces exactly `l` — the identical element
sequence. -/
theorem c7_intoSlice_overSlice_roundtrip {σ T E : Type} [Inhabited T]
    (i : It σ T E) (s : σ) (n : ℕ) (l : List T)
    (h : IntoSlice i s n = some l) :
    IntoSlice (OverSlice (E := E) l).1 (OverSlice (E := E) l).2 (l.length + 1) = some l := by
  have hnv : ToNonVolatile (sliceIterator (E := E) l) = sliceIterator (E := E) l := rfl
  simp only [IntoSlice, OverSlice, hnv]
  exact drain_slice l

/-- Witness for C7: collecting `Over(3, 1, 2)` yields `[3, 1, 2]` and the
round-trip reproduces it. -/
theorem c7_intoSlice_overSlice_roundtrip_witness :
    (IntoSlice (sliceIterator (E := Unit) ([3, 1, 2] : List ℕ)) (-1) 4 = some [3, 1, 2]) ∧
    IntoSlice (OverSlice (E := Unit) ([3, 1, 2] : List ℕ)).1
        (OverSlice (E := Unit) ([3, 1, 2] : List ℕ)).2 (([3, 1, 2] : List ℕ).length + 1) =
      some [3, 1, 2] :=
  ⟨by decide, c7_intoSlice_overSlice_roundtrip
    (sliceIterator (E := Unit) ([3, 1, 2] : List ℕ)) (-1) 4 [3, 1, 2] (by decide)⟩

end GoIter
namespace GoIter

theorem reduceLoop_drain {σ T E : Type} [Inhabited T] (i : It σ T E) (f : T → T → T) :
    ∀ (fuel : ℕ) (s : σ) (m : List T), drain i s fuel = some m →
      (∀ r, reduceLoop i f r true s fuel = some (m.foldl f r, true)) ∧
      reduceLoop i f default false s fuel =
        some (match m with
              | [] => (default, false)
              | x :: xs => (xs.foldl f x, true)) := by
  intro fuel
  induction fuel with
  | zero => intro s m h; exact absurd h (by simp [drain])
  | succ fuel ih =>
    intro s m h
    match hnx : i.next s with
    | (false, s₂) =>
      rw [drain_stop _ _ _ _ hnx] at h
      obtain rfl : m = [] := by simpa using h.symm
      constructor
      · intro r; simp [reduceLoop, hnx]
      · simp [reduceLoop, hnx]
    | (true, s₂) =>
      rw [drain_step _ _ _ _ hnx] at h
      match hd : drain i s₂ fuel with
      | none => rw [hd] at h; simp at h
      | some m' =>
        rw [hd] at h
        obtain rfl : m = i.get s₂ :: m' := by simpa using h.symm
        obtain ⟨ih1, _⟩ := ih s₂ m' hd
        constructor
        · intro r
          simp only [reduceLoop, hnx, if_pos]
          rw [ih1 (f r (i.get s₂))]
          simp
        · simp only [reduceLoop, hnx, Bool.false_eq_true, if_false]
          rw [ih1 (i.get s₂)]

/-- Claim C6: `Reduce` over a non-empty sequence `x :: xs` returns the
left fold of `f` with `ok = true`; over an empty sequence it returns the
zero value (`default`) with `ok = false`. -/
theorem c6_reduce_left_fold {T E : Type} [Inhabited T] (f : T → T → T) (x : T) (xs : List T) :
    Reduce (sliceIterator (E := E) (x :: xs)) f (-1) ((x :: xs).length + 1) =
      some (xs.foldl f x, true) ∧
    Reduce (sliceIterator (E := E) ([] : List T)) f (-1) 1 = some (default, false) := by
  constructor
  · have hd := drain_slice (E := E) (x :: xs)
    exact (reduceLoop_drain (sliceIterator (E := E) (x :: xs)) f _ _ _ hd).2
  · have hd := drain_slice (E := E) ([] : List T)
    exact (reduceLoop_drain (sliceIterator (E := E) ([] : List T)) f _ _ _ hd).2

end GoIter
namespace GoIter

theorem takeWhile_done_absorbing {σ T E : Type} (i : It σ T E) (pred : T → Bool) :
    ∀ (k : ℕ) (s : σ) (e : T),
      allFalseN (takeWhileIterator i pred) k (s, e, true) = true := by
  intro k
  induction k with
  | zero => intro s e; rfl
  | succ k ih =>
    intro s e
    have hnx : (takeWhileIterator i pred).next (s, e, true) = (false, (s, e, true)) := by
      simp [takeWhileIterator]
    simp only [allFalseN, hnx]
    exact ih s e

/-- Claim C8: once `takeWhileIterator` meets the first element failing
the predicate, that `Next` call and every subsequent one return false:
no further element is ever yielded, even if later source elements
satisfy the predicate. -/
theorem c8_takeWhile_stops_for_good {σ T E : Type} (i : It σ T E) (pred : T → Bool)
    (s : σ) (e : T) (k : ℕ)
    (h1 : (i.next s).1 = true) (h2 : pred (i.get (i.next s).2) = false) :
    allFalseN (takeWhileIterator i pred) (k + 1) (s, e, false) = true := by
  have hnx : (takeWhileIterator i pred).next (s, e, false) =
      (false, ((i.next s).2, i.get (i.next s).2, true)) := by
    simp only [takeWhileIterator]
    have hp : i.next s = (true, (i.next s).2) := by
      rw [← h1]
    rw [if_neg (by simp)]
    rw [hp]
    simp [h2]
  simp only [allFalseN, hnx]
  exact takeWhile_done_absorbing i pred k _ _

/-- Witness for C8 over `Over(5, 1)` with predicate `< 3`: the first
element 5 fails the predicate, and although the later element 1 would
pass, `Next` keeps returning false. -/
theorem c8_takeWhile_stops_for_good_witness :
    (((sliceIterator (E := Unit) ([5, 1] : List ℕ)).next (-1)).1 = true) ∧
    ((fun x => decide (x < 3))
        ((sliceIterator (E := Unit) ([5, 1] : List ℕ)).get
          (((sliceIterator (E := Unit) ([5, 1] : List ℕ)).next (-1)).2)) = false) ∧
    allFalseN
        (takeWhileIterator (sliceIterator (E := Unit) ([5, 1] : List ℕ))
          (fun x => decide (x < 3)))
        3 (-1, 0, false) = true :=
  ⟨by decide, by decide,
    c8_takeWhile_stops_for_good (sliceIterator (E := Unit) ([5, 1] : List ℕ))
      (fun x => decide (x < 3)) (-1) 0 2 (by decide) (by decide)⟩

end GoIter
namespace GoIter

theorem limit_counted_stop {σ T E : Type} (i : It σ T E) :
    ∀ (n c : ℕ) (s : σ), hasAtLeast i (n + 1) s = true →
      (stopState (limitIterator (counted i)) ((c, s), n) (n + 1)).map (fun st => st.1.1) =
        some (c + n + 1) := by
  intro n
  induction n with
  | zero =>
    intro c s h
    match hnx : i.next s with
    | (true, s') =>
      have hcn : (limitIterator (counted i)).next ((c, s), 0) = (false, ((c + 1, s'), 0)) := by
        simp [limitIterator, counted, hnx]
      rw [stopState_stop _ _ _ _ hcn]
      rfl
    | (false, s') =>
      exfalso
      simp [hasAtLeast, hnx] at h
  | succ n ih =>
    intro c s h
    match hnx : i.next s with
    | (true, s') =>
      have hcn : (limitIterator (counted i)).next ((c, s), n + 1) = (true, ((c + 1, s'), n)) := by
        simp [limitIterator, counted, hnx]
      rw [stopState_step _ _ _ _ hcn]
      have h' : hasAtLeast i (n + 1) s' = true := by
        simpa [hasAtLeast, hnx] using h
      have := ih (c + 1) s' h'
      rw [this]
      congr 1
      omega
    | (false, s') =>
      exfalso
      simp [hasAtLeast, hnx] at h

/-- Claim C9: for a source holding more than `n` elements, fully
draining `Limit(i, n)` makes exactly `n + 1` calls to the source's
`Next` (observed through the `counted` instrumentation): the source is
advanced one element past the limit.  The case `n = 0` shows a single
`Next` on `Limit(i, 0)` consumes the source's first element. -/
theorem c9_limit_consumes_one_past {σ T E : Type} (i : It σ T E) (n : ℕ) (s : σ)
    (h : hasAtLeast i (n + 1) s = true) :
    (stopState (Limit (counted i) n (0, s)).1 (Limit (counted i) n (0, s)).2 (n + 1)).map
        (fun st => st.1.1) = some (n + 1) := by
  have := limit_counted_stop i n 0 s h
  simpa [Limit] using this

/-- Witness for C9: `Limit(Over(1, 2, 3), 1)` drains with exactly 2
source `Next` calls. -/
theorem c9_limit_consumes_one_past_witness :
    (hasAtLeast (sliceIterator (E := Unit) ([1, 2, 3] : List ℕ)) 2 (-1) = true) ∧
    (stopState (Limit (counted (sliceIterator (E := Unit) ([1, 2, 3] : List ℕ))) 1 (0, -1)).1
          (Limit (counted (sliceIterator (E := Unit) ([1, 2, 3] : List ℕ))) 1 (0, -1)).2
          2).map (fun st => st.1.1) = some 2 :=
  ⟨by decide,
    c9_limit_consumes_one_past (sliceIterator (E := Unit) ([1, 2, 3] : List ℕ)) 1 (-1)
      (by decide)⟩

end GoIter
namespace GoIter

/-- Counterexample for C5: the claim says `Cycle(n)` with no items and
`n > 0` panics, but `Cycle(2)` with no items succeeds and yields an
empty sequence (matching the Go doc example `Cycle(2) → []`). -/
theorem c5_cycle_counterexample :
    ((Cycle (E := Unit) 2 ([] : List ℕ)).isSome = true) ∧
    (Cycle (E := Unit) 2 ([] : List ℕ)).map (fun p => drainP p 1) = some (some []) := by
  constructor <;> rfl

/-- Claim C5 as amended: `Repeat()` with no items panics, but `Cycle`
never panics for `n ≥ 0`: with no items it yields an empty sequence for
every such `n` (not only `n = 0`), and `Cycle(0, items...)` also yields
an empty sequence. -/
theorem c5_repeat_cycle_zero_amended {T E : Type} [Inhabited T]
    (n : Int) (items : List T) (hn : 0 ≤ n) :
    (Repeat (T := ℕ) (E := Unit) [] = none) ∧
    (Cycle (E := E) n ([] : List T)).map (fun p => drainP p 1) = some (some []) ∧
    (Cycle (E := E) 0 items).map (fun p => drainP p 1) = some (some []) := by
    refine ⟨rfl, ?_, ?_⟩
    · rw [Cycle, if_neg (by omega)]
      simp only [List.length_nil, true_or, if_pos]
      rfl
    · rw [Cycle, if_neg (by omega)]
      simp only [or_true, if_pos]
      rfl

/-- Witness for C5 (amended) at `n = 2`, `items = [7]`. -/
theorem c5_repeat_cycle_zero_amended_witness :
    ((0 : Int) ≤ 2) ∧
    ((Repeat (T := ℕ) (E := Unit) [] = none) ∧
      (Cycle (E := Unit) 2 ([] : List ℕ)).map (fun p => drainP p 1) = some (some []) ∧
      (Cycle (E := Unit) 0 ([7] : List ℕ)).map (fun p => drainP p 1) = some (some [])) :=
  ⟨by decide, c5_repeat_cycle_zero_amended 2 ([7] : List ℕ) (by decide)⟩

/-- Claim C1 at its failing input: `Accumulate(Error(37), +)` — the
wrapped source's terminal error is 37, yet after the wrapper's `Next`
returns false its `Err` returns nil, because `Accumulate` replaces an
already-exhausted source by a plain `emptyIterator`.  The last conjunct
shows the other adapter named by the claim: `nonVolatileIterator` (the
wrapper built by `ToNonVolatile`) always reports nil from `Err`, no
matter what the wrapped iterator's terminal error is. -/
theorem c1_error_forwarding_violated :
    (errAtStopP (Accumulate (errorIterator (T := ℕ) (E := ℕ) 37) (· + ·) ()) 1 =
      some none) ∧
    ((errorIterator (T := ℕ) (E := ℕ) 37).err () = some 37) ∧
    (∀ (σ : Type) (i : It σ ℕ ℕ) (gc : σ → ℕ) (s : σ),
      (nonVolatileIterator i gc).err s = none) := by
  exact ⟨rfl, rfl, fun _ _ _ _ => rfl⟩

end GoIter
namespace GoIter

theorem skip_counted_counter {σ T E : Type} (i : It σ T E) :
    ∀ (n c : ℕ) (s : σ), hasAtLeast i n s = true →
      (Skip (counted i) n (c, s)).1 = c + n := by
  intro n
  induction n with
  | zero => intro c s _; rfl
  | succ n ih =>
    intro c s h
    match hnx : i.next s with
    | (false, s') => exfalso; simp [hasAtLeast, hnx] at h
    | (true, s') =>
      have hcn : (counted i).next (c, s) = (true, (c + 1, s')) := by
        simp [counted, hnx]
      have h' : hasAtLeast i n s' = true := by simpa [hasAtLeast, hnx] using h
      simp only [Skip, hcn]
      rw [ih (c + 1) s' h']
      omega

/-- Counterexample for C4: the claim includes `Skip` among the
combinators whose construction performs no `Next` call on the source,
but constructing `Skip(Over(1,2,3), 2)` makes 2 source `Next` calls
(observed through the `counted` instrumentation). -/
theorem c4_skip_eager_counterexample :
    ((Skip (counted (sliceIterator (E := Unit) ([1, 2, 3] : List ℕ))) 2 (0, -1)).1 = 2) ∧
    ((Skip (counted (sliceIterator (E := Unit) ([1, 2, 3] : List ℕ))) 2 (0, -1)).1 ≠ 0) := by
  constructor <;> decide

/-- Claim C4 as amended: constructing `Map`, `Filter`, `DropWhile`,
`TakeWhile`, `Limit` or `Enumerate` performs no `Next` or `Get` call on
the source (the `counted` call counter stays 0 and the stored source
state is exactly the given one); but `Accumulate` advances the source
once at construction (counter 1, and it also reads the first element),
and `Skip` advances it `n` times (counter `n`, when the source holds at
least `n` elements). -/
theorem c4_lazy_construction_amended {σ T U E : Type} [Inhabited T]
    (i : It σ T E) (s : σ) (f : T → U) (g : T → T → T) (keep pr : T → Bool)
    (n : ℕ) (start : Int) (s₁ : σ)
    (h : i.next s = (true, s₁)) (hn : hasAtLeast i n s = true) :
    (Map (counted i) f (0, s)).2 = (0, s) ∧
    Filter (counted i) keep (0, s) = ((0, s), default) ∧
    DropWhile (counted i) pr (0, s) = ((0, s), default, false) ∧
    (TakeWhile (counted i) pr (0, s)).2 = ((0, s), default, false) ∧
    (Limit (counted i) n (0, s)).2 = ((0, s), n) ∧
    (Enumerate (counted i) start (0, s)).2 = ((0, s), start - 1) ∧
    (Accumulate (counted i) g (0, s) =
      ⟨(ℕ × σ) × AccState × T, accumulateIterator (counted i) g,
        ((1, s₁), AccState.initial, i.get s₁)⟩) ∧
    (Skip (counted i) n (0, s)).1 = n := by
  refine ⟨rfl, rfl, rfl, rfl, rfl, rfl, ?_, ?_⟩
  · have hcn : (counted i).next (0, s) = (true, (1, s₁)) := by simp [counted, h]
    simp only [Accumulate, hcn]
    rfl
  · simpa using skip_counted_counter i n 0 s hn

/-- Witness for C4 (amended) over `Over(1, 2, 3)` with `n = 2`. -/
theorem c4_lazy_construction_amended_witness :
    ((sliceIterator (E := Unit) ([1, 2, 3] : List ℕ)).next (-1) = (true, 0)) ∧
    (hasAtLeast (sliceIterator (E := Unit) ([1, 2, 3] : List ℕ)) 2 (-1) = true) ∧
    ((Map (counted (sliceIterator (E := Unit) ([1, 2, 3] : List ℕ))) (· + 1) (0, -1)).2 =
        (0, -1) ∧
      Filter (counted (sliceIterator (E := Unit) ([1, 2, 3] : List ℕ)))
          (fun x => decide (x % 2 = 1)) (0, -1) = ((0, -1), default) ∧
      DropWhile (counted (sliceIterator (E := Unit) ([1, 2, 3] : List ℕ)))
          (fun x => decide (x < 2)) (0, -1) = ((0, -1), default, false) ∧
      (TakeWhile (counted (sliceIterator (E := Unit) ([1, 2, 3] : List ℕ)))
          (fun x => decide (x < 2)) (0, -1)).2 = ((0, -1), default, false) ∧
      (Limit (counted (sliceIterator (E := Unit) ([1, 2, 3] : List ℕ))) 2 (0, -1)).2 =
        ((0, -1), 2) ∧
      (Enumerate (counted (sliceIterator (E := Unit) ([1, 2, 3] : List ℕ))) 5 (0, -1)).2 =
        ((0, -1), 5 - 1) ∧
      (Accumulate (counted (sliceIterator (E := Unit) ([1, 2, 3] : List ℕ))) (· + ·) (0, -1) =
        ⟨(ℕ × Int) × AccState × ℕ,
          accumulateIterator (counted (sliceIterator (E := Unit) ([1, 2, 3] : List ℕ))) (· + ·),
          ((1, 0), AccState.initial,
            (sliceIterator (E := Unit) ([1, 2, 3] : List ℕ)).get 0)⟩) ∧
      (Skip (counted (sliceIterator (E := Unit) ([1, 2, 3] : List ℕ))) 2 (0, -1)).1 = 2) :=
  ⟨by decide, by decide,
    c4_lazy_construction_amended (sliceIterator (E := Unit) ([1, 2, 3] : List ℕ)) (-1)
      (· + 1) (· + ·) (fun x => decide (x % 2 = 1)) (fun x => decide (x < 2)) 2 5 0
      (by decide) (by decide)⟩

end GoIter
namespace GoIter

theorem psEnd_eq {len : ℕ} (h : len ≤ 63) : (1 <<< len) % 2 ^ 64 = 2 ^ len := by
  rw [Nat.shiftLeft_eq, one_mul]
  exact Nat.mod_eq_of_lt (Nat.pow_lt_pow_right (by omega) (by omega))

theorem powerSet_next_started {T E : Type} [Inhabited T] (items : List T)
    (h63 : items.length ≤ 63) (c : ℕ) (hc : c < 2 ^ items.length) :
    (powerSetIterator (E := E) items).next (c, true) =
      (decide (c + 1 < 2 ^ items.length), (c + 1, true)) := by
  have hle : 2 ^ items.length ≤ 2 ^ 63 := Nat.pow_le_pow_right (by omega) h63
  have h64 : (2 : ℕ) ^ 63 < 2 ^ 64 := Nat.pow_lt_pow_right (by omega) (by omega)
  have hmod : (c + 1) % 2 ^ 64 = c + 1 := Nat.mod_eq_of_lt (by omega)
  simp only [powerSetIterator, if_pos, hmod, psEnd_eq h63]

theorem powerSet_count_aux {T E : Type} [Inhabited T] (items : List T)
    (h63 : items.length ≤ 63) :
    ∀ (m c : ℕ), 1 ≤ m → c + m = 2 ^ items.length →
      yieldCount (powerSetIterator (E := E) items) (c, true) m = some (m - 1) := by
  intro m
  induction m with
  | zero => omega
  | succ m ih =>
    intro c _ hce
    have hnx := powerSet_next_started (E := E) items h63 c (by omega)
    match m with
    | 0 =>
      rw [decide_eq_false (by omega)] at hnx
      rw [yieldCount_stop _ _ _ _ hnx]
    | m' + 1 =>
      rw [decide_eq_true (by omega)] at hnx
      rw [yieldCount_step _ _ _ _ hnx, ih (c + 1) (by omega) (by omega)]
      rfl

/-- Claim C3: for an input of at most 63 items, `PowerSet` succeeds and
yields exactly `2 ^ n` subsets before `Next` returns false, and the
first subset yielded is the empty one. -/
theorem c3_powerSet_count {T E : Type} [Inhabited T] (items : List T)
    (h : items.length ≤ 63) :
    ∃ p, PowerSet (E := E) items = some p ∧
      yieldCountP p (2 ^ items.length + 1) = some (2 ^ items.length) ∧
      firstP p = some [] := by
  rcases items with _ | ⟨x, xs⟩
  · refine ⟨⟨Int, sliceIterator [([] : List T)], -1⟩, rfl, ?_, ?_⟩
    · have h1 : (sliceIterator (E := E) [([] : List T)]).next (-1) = (true, 0) := by
        simp [sliceIterator]
      have h2 : (sliceIterator (E := E) [([] : List T)]).next 0 = (false, 1) := by
        simp [sliceIterator]
      show yieldCount (sliceIterator [([] : List T)]) (-1) 2 = some 1
      rw [yieldCount_step _ _ _ _ h1, yieldCount_stop _ _ _ _ h2]
      rfl
    · have h1 : (sliceIterator (E := E) [([] : List T)]).next (-1) = (true, 0) := by
        simp [sliceIterator]
      show firstP _ = some []
      simp only [firstP, h1]
      rfl
  · have h63 : (x :: xs).length ≤ 63 := h
    have hpow : 1 ≤ 2 ^ (x :: xs).length := Nat.one_le_two_pow
    refine ⟨⟨ℕ × Bool, powerSetIterator (x :: xs), (0, false)⟩, ?_, ?_, ?_⟩
    · rw [PowerSet, if_neg (by omega : ¬ (x :: xs).length > 63),
        if_neg (by simp : ¬ (x :: xs).length = 0)]
    · have hnx0 : (powerSetIterator (E := E) (x :: xs)).next (0, false) = (true, (0, true)) := by
        simp only [powerSetIterator, psEnd_eq h63, Bool.false_eq_true, if_false,
          Prod.mk.injEq, and_true]
        exact decide_eq_true hpow
      show yieldCount (powerSetIterator (x :: xs)) (0, false) (2 ^ (x :: xs).length + 1) =
        some (2 ^ (x :: xs).length)
      rw [yieldCount_step _ _ _ _ hnx0,
        powerSet_count_aux (E := E) (x :: xs) h63 (2 ^ (x :: xs).length) 0 (by omega) (by omega)]
      simp only [Option.map_some']
      congr 1
      omega
    · have hnx0 : (powerSetIterator (E := E) (x :: xs)).next (0, false) = (true, (0, true)) := by
        simp only [powerSetIterator, psEnd_eq h63, Bool.false_eq_true, if_false,
          Prod.mk.injEq, and_true]
        exact decide_eq_true hpow
      show firstP _ = some []
      simp only [firstP, hnx0]
      simp [powerSetIterator, popCount_zero]

/-- Witness for C3 at `items = [1, 2]`: four subsets, the empty one
first. -/
theorem c3_powerSet_count_witness :
    (([1, 2] : List ℕ).length ≤ 63) ∧
    (∃ p, PowerSet (E := Unit) ([1, 2] : List ℕ) = some p ∧
      yieldCountP p (2 ^ ([1, 2] : List ℕ).length + 1) = some (2 ^ ([1, 2] : List ℕ).length) ∧
      firstP p = some []) :=
  ⟨by decide, c3_powerSet_count ([1, 2] : List ℕ) (by decide)⟩

end GoIter
namespace GoIter

theorem consec_length (r : ℕ) : ∀ (lo : ℕ), (consec lo r).length = r := by
  induction r with
  | zero => intro lo; rfl
  | succ r ih => intro lo; simp [consec, ih]

theorem combSucc_length :
    ∀ (s : List ℕ) (d : ℕ) (s' : List ℕ), combSucc d s = some s' → s'.length = s.length := by
  intro s
  induction s with
  | nil => intro d s' h; exact absurd h (by simp [combSucc])
  | cons x t ih =>
    intro d s' h
    rw [combSucc] at h
    match ht : combSucc (d + 1) t with
    | some t' =>
      rw [ht] at h
      obtain rfl : s' = x :: t' := by simpa using h.symm
      simp [ih (d + 1) t' ht]
    | none =>
      rw [ht] at h
      by_cases hx : x = d
      · rw [if_pos hx] at h; exact absurd h (by simp)
      · rw [if_neg hx] at h
        obtain rfl : s' = (x + 1) :: consec (x + 2) t.length := by simpa using h.symm
        simp [consec_length]

theorem isTraceFrom_head (d : ℕ) :
    ∀ (L : List (List ℕ)) (s : List ℕ), IsTraceFrom d s L → ∃ L', L = s :: L' := by
  intro L s h
  match L with
  | [] => exact absurd h (by simp [IsTraceFrom])
  | [x] => obtain ⟨rfl, -⟩ := h; exact ⟨[], rfl⟩
  | x :: y :: rest => obtain ⟨rfl, -, -⟩ := h; exact ⟨y :: rest, rfl⟩

end GoIter
namespace GoIter

theorem isTrace_cons (d lo : ℕ) :
    ∀ (L : List (List ℕ)) (t : List ℕ), IsTraceFrom (d + 1) t L →
      ((lo = d → IsTraceFrom d (lo :: t) (L.map (lo :: ·))) ∧
       (lo ≠ d → ∀ R, IsTraceFrom d ((lo + 1) :: consec (lo + 2) t.length) R →
         IsTraceFrom d (lo :: t) (L.map (lo :: ·) ++ R))) := by
  intro L
  induction L with
  | nil => intro t h; exact absurd h (by simp [IsTraceFrom])
  | cons x L ih =>
    intro t h
    match L with
    | [] =>
      obtain ⟨rfl, hnone⟩ := h
      constructor
      · intro hle
        subst hle
        refine ⟨rfl, ?_⟩
        simp [combSucc, hnone]
      · intro hne R hR
        obtain ⟨R', rfl⟩ := isTraceFrom_head d R _ hR
        refine ⟨rfl, ?_, hR⟩
        simp only [combSucc, hnone]
        rw [if_neg hne]
    | y :: rest =>
      obtain ⟨rfl, hstep, htail⟩ := h
      have hsucc : combSucc d (lo :: x) = some (lo :: y) := by
        simp only [combSucc, hstep]
      have hylen : y.length = x.length := combSucc_length _ _ _ hstep
      have ihy := ih y htail
      constructor
      · intro hle
        exact ⟨rfl, hsucc, ihy.1 hle⟩
      · intro hne R hR
        rw [← hylen] at hR
        exact ⟨rfl, hsucc, ihy.2 hne R hR⟩

end GoIter
namespace GoIter

theorem combsFrom_empty (n lo r : ℕ) (h : n - r ≤ lo) :
    combsFrom n lo (r + 1) = [] := by
  simp only [combsFrom]
  have h0 : n - r - lo = 0 := by omega
  rw [h0]
  rfl

theorem combsFrom_singleton (n lo r : ℕ) (h : n - r - lo = 1) :
    combsFrom n lo (r + 1) = (combsFrom n (lo + 1) r).map (lo :: ·) := by
  simp only [combsFrom]
  rw [h, List.range'_one, List.flatMap_cons, List.flatMap_nil, List.append_nil]

theorem combsFrom_split (n lo r : ℕ) (h : lo < n - r) :
    combsFrom n lo (r + 1) =
      ((combsFrom n (lo + 1) r).map (lo :: ·)) ++ combsFrom n (lo + 1) (r + 1) := by
  have hk : n - r - lo = (n - r - (lo + 1)) + 1 := by omega
  simp only [combsFrom]
  rw [hk, List.range'_succ, List.flatMap_cons]

theorem combsFrom_length (n : ℕ) :
    ∀ (r lo : ℕ), (combsFrom n lo r).length = (n - lo).choose r := by
  intro r
  induction r with
  | zero => intro lo; simp [combsFrom]
  | succ r ihr =>
    suffices hs : ∀ (m lo : ℕ), n - lo = m →
        (combsFrom n lo (r + 1)).length = (n - lo).choose (r + 1) by
      intro lo; exact hs (n - lo) lo rfl
    intro m
    induction m with
    | zero =>
      intro lo hm
      rw [combsFrom_empty n lo r (by omega), hm]
      simp
    | succ m ihm =>
      intro lo hm
      by_cases hc : lo < n - r
      · rw [combsFrom_split n lo r hc]
        simp only [List.length_append, List.length_map]
        rw [ihr (lo + 1), ihm (lo + 1) (by omega)]
        have h1 : n - (lo + 1) = m := by omega
        rw [h1, hm]
        exact (Nat.choose_succ_succ' m r).symm
      · rw [combsFrom_empty n lo r (by omega)]
        have hlt : n - lo < r + 1 := by omega
        simp [Nat.choose_eq_zero_of_lt hlt]

theorem combs_trace_succ (r : ℕ)
    (ihr : ∀ lo d : ℕ, lo ≤ d → IsTraceFrom d (consec lo r) (combsFrom (d + r) lo r)) :
    ∀ (m lo d : ℕ), d - lo = m → lo ≤ d →
      IsTraceFrom d (consec lo (r + 1)) (combsFrom (d + (r + 1)) lo (r + 1)) := by
  intro m
  induction m with
  | zero =>
    intro lo d hm hlo
    have hld : lo = d := by omega
    subst hld
    have htail := ihr (lo + 1) (lo + 1) le_rfl
    have hn : (lo + 1) + r = lo + (r + 1) := by omega
    rw [hn] at htail
    have hseg := (isTrace_cons lo lo _ _ htail).1 rfl
    have hone : combsFrom (lo + (r + 1)) lo (r + 1) =
        (combsFrom (lo + (r + 1)) (lo + 1) r).map (lo :: ·) :=
      combsFrom_singleton _ _ _ (by omega)
    show IsTraceFrom lo (lo :: consec (lo + 1) r) (combsFrom (lo + (r + 1)) lo (r + 1))
    rw [hone]
    exact hseg
  | succ m ihm =>
    intro lo d hm hlo
    have hlt : lo < d := by omega
    have htail := ihr (lo + 1) (d + 1) (by omega)
    have hn : (d + 1) + r = d + (r + 1) := by omega
    rw [hn] at htail
    have hblock := ihm (lo + 1) d (by omega) (by omega)
    have hconsec : consec (lo + 1) (r + 1) = (lo + 1) :: consec (lo + 2) r := rfl
    rw [hconsec] at hblock
    have hlen : (consec (lo + 1) r).length = r := consec_length r (lo + 1)
    have hR : IsTraceFrom d ((lo + 1) :: consec (lo + 2) (consec (lo + 1) r).length)
        (combsFrom (d + (r + 1)) (lo + 1) (r + 1)) := by
      rw [hlen]; exact hblock
    have hseg := (isTrace_cons d lo _ _ htail).2 (by omega) _ hR
    show IsTraceFrom d (lo :: consec (lo + 1) r) (combsFrom (d + (r + 1)) lo (r + 1))
    rw [combsFrom_split (d + (r + 1)) lo r (by omega)]
    exact hseg

theorem combs_trace : ∀ (r lo d : ℕ), lo ≤ d →
    IsTraceFrom d (consec lo r) (combsFrom (d + r) lo r) := by
  intro r
  induction r with
  | zero =>
    intro lo d _
    exact ⟨rfl, rfl⟩
  | succ r ihr =>
    intro lo d hlo
    exact combs_trace_succ r ihr (d - lo) lo d rfl hlo

end GoIter
namespace GoIter

theorem yieldCount_slice_single {T E : Type} [Inhabited T] (a : T) :
    yieldCount (sliceIterator (E := E) [a]) (-1) 2 = some 1 := by
  have h1 : (sliceIterator (E := E) [a]).next (-1) = (true, 0) := by
    simp [sliceIterator]
  have h2 : (sliceIterator (E := E) [a]).next 0 = (false, 1) := by
    simp [sliceIterator]
  rw [yieldCount_step _ _ _ _ h1, yieldCount_stop _ _ _ _ h2]
  rfl

theorem comb_trace_yieldCount {T E : Type} [Inhabited T] (items : List T) (r : ℕ) :
    ∀ (L : List (List ℕ)) (s : List ℕ) (fuel : ℕ),
      IsTraceFrom (items.length - r) s L → L.length ≤ fuel →
      yieldCount (combinationsIterator (E := E) items r) (s, true) fuel =
        some (L.length - 1) := by
  intro L
  induction L with
  | nil => intro s fuel h _; exact absurd h (by simp [IsTraceFrom])
  | cons x L ih =>
    intro s fuel h hfuel
    match L with
    | [] =>
      obtain ⟨rfl, hnone⟩ := h
      have hnx : (combinationsIterator (E := E) items r).next (x, true) =
          (false, (x, true)) := by
        simp [combinationsIterator, hnone]
      match fuel with
      | 0 => exact absurd hfuel (by simp)
      | fuel + 1 => rw [yieldCount_stop _ _ _ _ hnx]; rfl
    | y :: rest =>
      obtain ⟨rfl, hstep, htail⟩ := h
      have hnx : (combinationsIterator (E := E) items r).next (x, true) =
          (true, (y, true)) := by
        simp [combinationsIterator, hstep]
      match fuel with
      | 0 => exact absurd hfuel (by simp)
      | fuel + 1 =>
        rw [yieldCount_step _ _ _ _ hnx, ih y fuel htail (by simpa using hfuel)]
        rfl

/-- Claim C2: for every item list of length `n` and every `r`, the
iterator returned by `Combinations(r, items...)` yields exactly
`C(n, r) = Nat.choose n r` tuples before `Next` returns false — in
particular zero tuples when `r > n` (where `C(n, r) = 0`) — and for
`r = 0` the single tuple yielded is the empty tuple. -/
theorem c2_combinations_count {T E : Type} [Inhabited T] (items : List T) (r : ℕ) :
    yieldCountP (Combinations (E := E) r items) (items.length.choose r + 1) =
      some (items.length.choose r) ∧
    drainP (Combinations (E := E) 0 items) 2 = some [[]] := by
  constructor
  · by_cases h1 : r > items.length
    · have hch : items.length.choose r = 0 := Nat.choose_eq_zero_of_lt h1
      rw [hch]
      show yieldCountP _ 1 = some 0
      rw [Combinations, if_pos h1]
      show yieldCount (emptyIterator (E := E)) () 1 = some 0
      rfl
    · by_cases h0 : r = 0
      · subst h0
        rw [Nat.choose_zero_right]
        rw [Combinations, if_neg h1, if_pos rfl]
        show yieldCount (sliceIterator (E := E) [([] : List T)]) (-1) 2 = some 1
        exact yieldCount_slice_single ([] : List T)
      · have hrn : r ≤ items.length := by omega
        rw [Combinations, if_neg h1, if_neg h0]
        show yieldCount (combinationsIterator (E := E) items r) ([], false)
          (items.length.choose r + 1) = some (items.length.choose r)
        have hnx0 : (combinationsIterator (E := E) items r).next ([], false) =
            (true, (consec 0 r, true)) := by
          simp [combinationsIterator]
        have htr := combs_trace r 0 (items.length - r) (by omega)
        have hd : (items.length - r) + r = items.length := by omega
        rw [hd] at htr
        have hlen := combsFrom_length items.length r 0
        rw [Nat.sub_zero] at hlen
        rw [yieldCount_step _ _ _ _ hnx0]
        rw [comb_trace_yieldCount items r _ _ _ htr (by rw [hlen])]
        rw [hlen]
        simp only [Option.map_some']
        have hpos : 0 < items.length.choose r := Nat.choose_pos hrn
        congr 1
        omega
  · rw [Combinations, if_neg (by omega : ¬ (0 : ℕ) > items.length), if_pos rfl]
    show drain (sliceIterator (E := E) [([] : List T)]) (-1) 2 = some [[]]
    exact drain_slice [([] : List T)]

end GoIter
